import Mathlib

/-!
Verification of the position/slice correspondence engine of
`src/sqlfluff/core/templaters/base.py` (and the templater class hierarchy of
`plugins/sqlfluff-templater-dataform/sqlfluff_templater_dataform/templater.py`).

The Python code is shallowly embedded: Python `int` becomes `Int`, Python
`slice(start, stop)` becomes `PySlice`, the `(str, slice, slice)` tuples of
`sliced_file` become `TFSlice`, strings become `String` or `List Char`, and
`Optional` values become `Option`.  The index error that Python raises when a
list indexing fails is modelled by an `Option` result where it could occur.
-/

namespace SqlFluff

/-- A Python `slice(start, stop)` value as used in `sliced_file` entries and
as the argument of `template_slice_to_source_slice`. -/
structure PySlice where
  start : Int
  stop : Int
deriving DecidableEq

/-- One element of `sliced_file`: the Python tuple `(kind, source_slice,
templated_slice)`, where `kind` is the string tag compared against
`"literal"` in the code. -/
structure TFSlice where
  kind : String
  source : PySlice
  templated : PySlice
deriving DecidableEq

/-- Helper for `iter_indices_of_newlines`: the indices (counted from `i`) of
all `\n` characters in the remaining text.  This is the unfolding of the
`str.find`-based `while` loop, which yields the positions of every newline in
ascending order. -/
def newlineIndicesFrom : List Char → Nat → List Int
  | [], _ => []
  | c :: rest, i =>
    if c = '\n' then (i : Int) :: newlineIndicesFrom rest (i + 1)
    else newlineIndicesFrom rest (i + 1)

/-- `iter_indices_of_newlines` (base.py lines 39-48): the indices of all
newlines in a string, in ascending order. -/
def iter_indices_of_newlines (raw_str : List Char) : List Int :=
  newlineIndicesFrom raw_str 0

/-- The `while` loop of `get_line_pos_of_char_pos` (base.py line 111): it
advances `nl_idx` while the next stored newline index is strictly below
`char_pos`.  The final `nl_idx` equals this count minus one. -/
def nlScan : List Int → Int → Nat
  | [], _ => 0
  | x :: rest, char_pos => if x < char_pos then nlScan rest char_pos + 1 else 0

/-- `get_line_pos_of_char_pos` (base.py lines 93-119) on an already selected
newline-index list `ref_str`.  When the loop advanced (`nl_idx >= 0`, i.e.
`nlScan = m + 1` with `nl_idx = m`) the result is
`(nl_idx + 2, char_pos - ref_str[nl_idx])`; otherwise `(1, char_pos + 1)`. -/
def get_line_pos_of_char_pos (ref_str : List Int) (char_pos : Int) : Int × Int :=
  match nlScan ref_str char_pos with
  | 0 => (1, char_pos + 1)
  | Nat.succ m => ((m : Int) + 2, char_pos - ref_str.getD m 0)

/-- The first `for` loop of `template_slice_to_source_slice` (base.py lines
129-133): the index of the first element whose templated slice's `stop`
strictly exceeds `template_slice.start`; if no element qualifies the loop
runs out and leaves the last index. -/
def findStartIdx : List TFSlice → Int → Nat
  | [], _ => 0
  | [_], _ => 0
  | e :: e2 :: rest, tstart =>
    if e.templated.stop > tstart then 0 else findStartIdx (e2 :: rest) tstart + 1

/-- The second `for` loop (base.py lines 135-139), run on the tail
`sliced_file[start_idx:]`: the relative index of the first element whose
templated slice's `stop` is at least `template_slice.stop`; if no element
qualifies the loop leaves the last relative index. -/
def findStopIdx : List TFSlice → Int → Nat
  | [], _ => 0
  | [_], _ => 0
  | e :: e2 :: rest, tstop =>
    if e.templated.stop ≥ tstop then 0 else findStopIdx (e2 :: rest) tstop + 1

/-- `slices = self.sliced_file[start_idx:stop_idx]` (base.py lines 129-142):
the inclusive run of segments from the start segment to the stop segment. -/
def translationWindow (l : List TFSlice) (ts : PySlice) : List TFSlice :=
  let start_idx := findStartIdx l ts.start
  let rel := findStopIdx (l.drop start_idx) ts.stop
  (l.drop start_idx).take (rel + 1)

/-- The start-boundary computation (base.py lines 148-153): for a literal
start segment, shift the source start by the offset of `template_slice.start`
into the segment's templated span; otherwise use the segment's source start. -/
def startBound (s0 : TFSlice) (ts : PySlice) : Int :=
  if s0.kind = "literal" then s0.source.start + (ts.start - s0.templated.start)
  else s0.source.start

/-- The stop-boundary computation (base.py lines 155-160): symmetric to
`startBound`, on the last segment of the window. -/
def stopBound (sl : TFSlice) (ts : PySlice) : Int :=
  if sl.kind = "literal" then sl.source.stop - (sl.templated.stop - ts.stop)
  else sl.source.stop

/-- The widest-span fallback (base.py lines 174-175): the minimum source
start and maximum source stop over the window, written as Python's
`min`/`max` over a generator, i.e. a fold over the window. -/
def widestSpan (s0 : TFSlice) (srest : List TFSlice) : PySlice :=
  ⟨srest.foldl (fun a e => min a e.source.start) s0.source.start,
   srest.foldl (fun a e => max a e.source.stop) s0.source.stop⟩

/-- `template_slice_to_source_slice` (base.py lines 121-177).  `sliced_file`
is `none` for Python `None`; a falsy (empty) list takes the same early
return.  The `[]` window case would be a Python `IndexError` on `slices[0]`,
modelled as `none`; it is proved unreachable below.  The successive
`is_literal` let-bindings mirror the successive assignments in the code. -/
def template_slice_to_source_slice (sliced_file : Option (List TFSlice))
    (template_slice : PySlice) : Option (PySlice × Bool) :=
  match sliced_file with
  | none => some (template_slice, false)
  | some [] => some (template_slice, false)
  | some (e :: rest) =>
    match translationWindow (e :: rest) template_slice with
    | [] => none
    | s0 :: srest =>
      let slast := srest.getLastD s0
      let source_start := startBound s0 template_slice
      let source_stop := stopBound slast template_slice
      let is_literal := true
      let is_literal := if s0.kind = "literal" then is_literal else false
      let is_literal := if slast.kind = "literal" then is_literal else false
      let is_literal :=
        if (s0 :: srest).any (fun el => decide (el.kind ≠ "literal")) then false
        else is_literal
      if source_start > source_stop then
        some (widestSpan s0 srest, is_literal)
      else
        some (PySlice.mk source_start source_stop, is_literal)

/-- The data of a `TemplatedFile` (base.py lines 51-83) after `__init__` has
run: the resolved `templated_str` and the two precomputed newline lists. -/
structure TemplatedFile where
  source_str : String
  templated_str : String
  fname : Option String
  sliced_file : Option (List TFSlice)
  source_newlines : List Int
  templated_newlines : List Int
deriving DecidableEq

/-- `TemplatedFile.__init__` (base.py lines 59-83).  `templated_str or
source_str` evaluates to `source_str` when `templated_str` is `None` or the
empty string (both falsy), and to `templated_str` otherwise. -/
def TemplatedFile.init (source_str : String) (templated_str : Option String)
    (fname : Option String) (sliced_file : Option (List TFSlice)) : TemplatedFile :=
  let t :=
    match templated_str with
    | none => source_str
    | some s => if s = "" then source_str else s
  { source_str := source_str
    templated_str := t
    fname := fname
    sliced_file := sliced_file
    source_newlines := iter_indices_of_newlines source_str.toList
    templated_newlines := iter_indices_of_newlines t.toList }

/-- `TemplatedFile.__bool__` (base.py lines 85-87): `bool(self.templated_str)`,
i.e. whether the templated string is non-empty. -/
def TemplatedFile.toBool (tf : TemplatedFile) : Bool :=
  decide (tf.templated_str ≠ "")

/-- The text selected by the `source` flag of `get_line_pos_of_char_pos`. -/
def TemplatedFile.selectedText (tf : TemplatedFile) (source : Bool) : String :=
  if source then tf.source_str else tf.templated_str

/-- The method `TemplatedFile.get_line_pos_of_char_pos` (base.py lines
93-119): select the precomputed newline list by the `source` flag and run the
scan. -/
def TemplatedFile.get_line_pos (tf : TemplatedFile) (char_pos : Int)
    (source : Bool) : Int × Int :=
  get_line_pos_of_char_pos
    (if source then tf.source_newlines else tf.templated_newlines) char_pos

/-- The method `TemplatedFile.template_slice_to_source_slice` applied to the
file's own `sliced_file`. -/
def TemplatedFile.toSourceSlice (tf : TemplatedFile) (ts : PySlice) :
    Option (PySlice × Bool) :=
  template_slice_to_source_slice tf.sliced_file ts

/-- The concrete templater classes present in the repository:
`RawTemplater` (base.py lines 180-220) and `DataformTemplater`
(`class DataformTemplater(RawTemplater)` in the dataform plugin). -/
inductive TemplaterClass
  | rawTemplater
  | dataformTemplater
deriving DecidableEq

/-- Python `isinstance(obj, cls)` over this class hierarchy, where an
instance is represented by its concrete class: every instance is an instance
of its own class and of `RawTemplater`, the common base. -/
def isinstance : TemplaterClass → TemplaterClass → Bool
  | _, .rawTemplater => true
  | .dataformTemplater, .dataformTemplater => true
  | .rawTemplater, .dataformTemplater => false

/-- The dunder method `RawTemplater.__eq__` (base.py lines 215-220) as a
direct call: `isinstance(other, self.__class__)`.  `self.__class__` is the
concrete class of `self`; the method is inherited unchanged by
`DataformTemplater`.  The `==` operator itself is `templaterEq`, which adds
the interpreter's operand dispatch on top of this method. -/
def RawTemplater.eqMethod (self other : TemplaterClass) : Bool :=
  isinstance other self

/-- Python `v == w` between templater instances: the interpreter's rich
comparison gives the right operand's (reflected) method priority when the
right operand's type is a proper subclass of the left operand's type, and
falls back to the left operand's method otherwise.  Both classes resolve
`__eq__` to the inherited `RawTemplater.__eq__`, which always returns a
bool, never `NotImplemented`, so whichever call runs first decides. -/
def templaterEq (v w : TemplaterClass) : Bool :=
  if v ≠ w ∧ isinstance w v = true then RawTemplater.eqMethod w v
  else RawTemplater.eqMethod v w

/-- Modelled from the spec: "the greatest newline offset `n` such that
`n < offset`" (spec section 4.1), computed as the maximum of all candidate
newline offsets, or `none` when no newline precedes the offset. -/
def greatestBelow (newlines : List Int) (offset : Int) : Option Int :=
  match newlines.filter (fun x => decide (x < offset)) with
  | [] => none
  | b :: bs => some (bs.foldl max b)

/-- Modelled from the spec, for comparison with `get_line_pos_of_char_pos`
(which is translated from the code): spec section 4.1's stated result
"`line = (count of newline offsets ≤ n) + 2` when such `n` exists, else
`line = 1`; `column = offset - n` when `n` exists, else `column = offset + 1`". -/
def spec_line_pos (newlines : List Int) (offset : Int) : Int × Int :=
  match greatestBelow newlines offset with
  | none => (1, offset + 1)
  | some n =>
    (((newlines.filter (fun x => decide (x ≤ n))).length : Int) + 2, offset - n)

/-- The amended form of `spec_line_pos`: the line is the count of newline
offsets strictly below `n`, plus 2 (equivalently the count of offsets at most
`n`, plus 1); the column is unchanged. -/
def spec_line_pos_amended (newlines : List Int) (offset : Int) : Int × Int :=
  match greatestBelow newlines offset with
  | none => (1, offset + 1)
  | some n =>
    (((newlines.filter (fun x => decide (x < n))).length : Int) + 2, offset - n)

/-- The two-segment table of spec section 8's window-correctness example: a
literal segment for `SELECT * FROM ` and a transformed segment for the
substituted identifier. -/
def exampleTable : List TFSlice :=
  [⟨"literal", ⟨0, 14⟩, ⟨0, 14⟩⟩, ⟨"templated", ⟨14, 26⟩, ⟨14, 21⟩⟩]

/-- A two-segment table whose segments are both literal but appear out of
source order (as a loop body would), used to exercise the degenerate-order
fallback. -/
def reorderedTable : List TFSlice :=
  [⟨"literal", ⟨20, 25⟩, ⟨0, 5⟩⟩, ⟨"literal", ⟨0, 5⟩, ⟨5, 10⟩⟩]

lemma glp_eq_zero (l : List Int) (c : Int) (h : nlScan l c = 0) :
    get_line_pos_of_char_pos l c = (1, c + 1) := by
  unfold get_line_pos_of_char_pos
  rw [h]

lemma glp_eq_succ (l : List Int) (c : Int) (m : Nat) (h : nlScan l c = m + 1) :
    get_line_pos_of_char_pos l c = ((m : Int) + 2, c - l.getD m 0) := by
  unfold get_line_pos_of_char_pos
  rw [h]

lemma glp_fst (l : List Int) (c : Int) :
    (get_line_pos_of_char_pos l c).1 = (nlScan l c : Int) + 1 := by
  cases h : nlScan l c with
  | zero => rw [glp_eq_zero l c h]; norm_num
  | succ m => rw [glp_eq_succ l c m h]; push_cast; ring

lemma nlScan_mono (l : List Int) {c1 c2 : Int} (h : c1 ≤ c2) :
    nlScan l c1 ≤ nlScan l c2 := by
  induction l with
  | nil => simp [nlScan]
  | cons x rest ih =>
    simp only [nlScan]
    by_cases hx : x < c1
    · rw [if_pos hx, if_pos (lt_of_lt_of_le hx h)]
      omega
    · rw [if_neg hx]
      exact Nat.zero_le _

lemma nlScan_le_length (l : List Int) (c : Int) : nlScan l c ≤ l.length := by
  induction l with
  | nil => simp [nlScan]
  | cons x rest ih =>
    simp only [nlScan, List.length_cons]
    split
    · omega
    · exact Nat.zero_le _

lemma nlScan_eq_length (l : List Int) (c : Int) (h : ∀ x ∈ l, x < c) :
    nlScan l c = l.length := by
  induction l with
  | nil => rfl
  | cons x rest ih =>
    simp only [nlScan, List.length_cons]
    rw [if_pos (h x (by simp))]
    rw [ih (fun y hy => h y (List.mem_cons_of_mem x hy))]

lemma nlScan_eq_zero (l : List Int) (c : Int) (h : ∀ x ∈ l, ¬x < c) :
    nlScan l c = 0 := by
  cases l with
  | nil => rfl
  | cons x rest =>
    simp only [nlScan]
    rw [if_neg (h x (by simp))]

lemma newlineIndicesFrom_ge (s : List Char) :
    ∀ (i : Nat), ∀ x ∈ newlineIndicesFrom s i, (i : Int) ≤ x := by
  induction s with
  | nil => intro i x hx; simp [newlineIndicesFrom] at hx
  | cons ch rest ih =>
    intro i x hx
    simp only [newlineIndicesFrom] at hx
    by_cases hc : ch = '\n'
    · rw [if_pos hc] at hx
      rcases List.mem_cons.mp hx with h1 | h2
      · omega
      · have := ih (i + 1) x h2
        push_cast at this ⊢
        omega
    · rw [if_neg hc] at hx
      have := ih (i + 1) x hx
      push_cast at this ⊢
      omega

lemma newlineIndicesFrom_lt (s : List Char) :
    ∀ (i : Nat), ∀ x ∈ newlineIndicesFrom s i, x < (i : Int) + s.length := by
  induction s with
  | nil => intro i x hx; simp [newlineIndicesFrom] at hx
  | cons ch rest ih =>
    intro i x hx
    simp only [newlineIndicesFrom] at hx
    simp only [List.length_cons]
    by_cases hc : ch = '\n'
    · rw [if_pos hc] at hx
      rcases List.mem_cons.mp hx with h1 | h2
      · push_cast
        omega
      · have := ih (i + 1) x h2
        push_cast at this ⊢
        omega
    · rw [if_neg hc] at hx
      have := ih (i + 1) x hx
      push_cast at this ⊢
      omega

lemma newlineIndicesFrom_sorted (s : List Char) :
    ∀ (i : Nat), (newlineIndicesFrom s i).Pairwise (· < ·) := by
  induction s with
  | nil => intro i; simp [newlineIndicesFrom]
  | cons ch rest ih =>
    intro i
    simp only [newlineIndicesFrom]
    by_cases hc : ch = '\n'
    · rw [if_pos hc]
      refine List.Pairwise.cons ?_ (ih (i + 1))
      intro y hy
      have := newlineIndicesFrom_ge rest (i + 1) y hy
      push_cast at this ⊢
      omega
    · rw [if_neg hc]
      exact ih (i + 1)

lemma iter_newlines_nonneg (s : List Char) :
    ∀ x ∈ iter_indices_of_newlines s, 0 ≤ x := by
  intro x hx
  simpa using newlineIndicesFrom_ge s 0 x hx

lemma iter_newlines_lt (s : List Char) :
    ∀ x ∈ iter_indices_of_newlines s, x < (s.length : Int) := by
  intro x hx
  have := newlineIndicesFrom_lt s 0 x hx
  simpa using this

lemma iter_newlines_sorted (s : List Char) :
    (iter_indices_of_newlines s).Pairwise (· < ·) :=
  newlineIndicesFrom_sorted s 0

lemma filter_lt_eq_take (l : List Int) (c : Int) (hs : l.Pairwise (· < ·)) :
    l.filter (fun x => decide (x < c)) = l.take (nlScan l c) := by
  induction l with
  | nil => rfl
  | cons x rest ih =>
    rcases List.pairwise_cons.mp hs with ⟨hx, hrest⟩
    by_cases h : x < c
    · rw [List.filter_cons_of_pos (by simpa using h)]
      simp only [nlScan]
      rw [if_pos h, List.take_succ_cons, ih hrest]
    · rw [List.filter_cons_of_neg (by simpa using h)]
      simp only [nlScan]
      rw [if_neg h, List.take_zero]
      rw [List.filter_eq_nil_iff]
      intro y hy
      simp only [decide_eq_true_eq]
      have := hx y hy
      omega

lemma getD_congr {α : Type} (l : List α) (m : Nat) (d1 d2 : α) (h : m < l.length) :
    l.getD m d1 = l.getD m d2 := by
  induction l generalizing m with
  | nil => simp at h
  | cons x rest ih =>
    cases m with
    | zero => rfl
    | succ m' => exact ih m' (by simpa using h)

lemma getD_mem {α : Type} (l : List α) (m : Nat) (d : α) (h : m < l.length) :
    l.getD m d ∈ l := by
  induction l generalizing m with
  | nil => simp at h
  | cons x rest ih =>
    cases m with
    | zero => exact List.mem_cons_self x rest
    | succ m' => exact List.mem_cons_of_mem x (ih m' (by simpa using h))

lemma getLastD_take (l : List Int) (m : Nat) (d : Int) (h : m < l.length) :
    (l.take (m + 1)).getLastD d = l.getD m d := by
  induction l generalizing m d with
  | nil => simp at h
  | cons x rest ih =>
    cases m with
    | zero => rfl
    | succ m' =>
      have h' : m' < rest.length := by simpa using h
      rw [List.take_succ_cons, List.getLastD_cons, ih m' x h']
      exact getD_congr rest m' x d h'

lemma mem_getLastD_cons {α : Type} (l : List α) (a : α) : l.getLastD a ∈ a :: l := by
  induction l generalizing a with
  | nil => simp
  | cons b t ih =>
    rw [List.getLastD_cons]
    exact List.mem_cons_of_mem a (ih b)

lemma foldl_max_eq_getLastD (l : List Int) (a : Int) (h1 : ∀ y ∈ l, a ≤ y)
    (h2 : l.Pairwise (· ≤ ·)) : l.foldl max a = l.getLastD a := by
  induction l generalizing a with
  | nil => rfl
  | cons y rest ih =>
    rcases List.pairwise_cons.mp h2 with ⟨hy, hrest⟩
    rw [List.foldl_cons, List.getLastD_cons, max_eq_right (h1 y (by simp))]
    exact ih y hy hrest

lemma nlScan_getD (l : List Int) (m : Nat) (hs : l.Pairwise (· < ·))
    (hm : m < l.length) : nlScan l (l.getD m 0) = m := by
  induction l generalizing m with
  | nil => simp at hm
  | cons x rest ih =>
    rcases List.pairwise_cons.mp hs with ⟨hx, hrest⟩
    cases m with
    | zero =>
      show nlScan (x :: rest) x = 0
      simp [nlScan]
    | succ m' =>
      have h' : m' < rest.length := by simpa using hm
      show nlScan (x :: rest) (rest.getD m' 0) = m' + 1
      simp only [nlScan]
      rw [if_pos (hx _ (getD_mem rest m' 0 h'))]
      rw [ih m' hrest h']

lemma greatestBelow_scan_zero (l : List Int) (c : Int) (hs : l.Pairwise (· < ·))
    (h : nlScan l c = 0) : greatestBelow l c = none := by
  unfold greatestBelow
  rw [filter_lt_eq_take l c hs, h, List.take_zero]

lemma greatestBelow_scan_succ (l : List Int) (c : Int) (m : Nat)
    (hs : l.Pairwise (· < ·)) (h : nlScan l c = m + 1) :
    greatestBelow l c = some (l.getD m 0) := by
  have hm : m < l.length := by
    have := nlScan_le_length l c
    omega
  unfold greatestBelow
  rw [filter_lt_eq_take l c hs, h]
  obtain ⟨b, bs, hbs⟩ : ∃ b bs, l.take (m + 1) = b :: bs := by
    cases htk : l.take (m + 1) with
    | nil =>
      exfalso
      have hlen := congrArg List.length htk
      rw [List.length_take] at hlen
      simp only [List.length_nil] at hlen
      omega
    | cons b bs => exact ⟨b, bs, rfl⟩
  rw [hbs]
  show some (bs.foldl max b) = some (l.getD m 0)
  congr 1
  have hsort : (b :: bs).Pairwise (· < ·) := by
    rw [← hbs]
    exact hs.sublist (List.take_sublist _ _)
  rcases List.pairwise_cons.mp hsort with ⟨hb, hbs'⟩
  rw [foldl_max_eq_getLastD bs b (fun y hy => le_of_lt (hb y hy)) (hbs'.imp le_of_lt)]
  have h2 := getLastD_take l m 0 hm
  rw [hbs, List.getLastD_cons] at h2
  exact h2

lemma findStartIdx_lt_length (e : TFSlice) (rest : List TFSlice) (t : Int) :
    findStartIdx (e :: rest) t < (e :: rest).length := by
  induction rest generalizing e with
  | nil => simp [findStartIdx]
  | cons e2 rest2 ih =>
    simp only [findStartIdx, List.length_cons]
    split
    · omega
    · have := ih e2
      simp only [List.length_cons] at this
      omega

lemma translationWindow_cons_ne_nil (e : TFSlice) (rest : List TFSlice)
    (ts : PySlice) : translationWindow (e :: rest) ts ≠ [] := by
  intro h
  unfold translationWindow at h
  have hlt := findStartIdx_lt_length e rest ts.start
  have hlen := congrArg List.length h
  rw [List.length_take, List.length_drop] at hlen
  simp only [List.length_nil] at hlen
  omega

lemma flag_eq (s0 : TFSlice) (srest : List TFSlice) :
    (if (s0 :: srest).any (fun el => decide (el.kind ≠ "literal")) then false
     else
       if (srest.getLastD s0).kind = "literal" then
         if s0.kind = "literal" then true else false
       else false)
    = !((s0 :: srest).any fun el => decide (el.kind ≠ "literal")) := by
  by_cases hany : (s0 :: srest).any (fun el => decide (el.kind ≠ "literal")) = true
  · rw [if_pos hany, hany]
    rfl
  · have hanyf : ((s0 :: srest).any fun el => decide (el.kind ≠ "literal")) = false :=
      Bool.eq_false_iff.mpr hany
    have hall : ∀ el ∈ s0 :: srest, el.kind = "literal" := by
      intro el hel
      by_contra hk
      exact hany (List.any_eq_true.mpr ⟨el, hel, by simpa using hk⟩)
    rw [hanyf]
    simp only [Bool.not_false, if_false]
    rw [if_pos (hall _ (mem_getLastD_cons srest s0)),
      if_pos (hall s0 (List.mem_cons_self s0 srest))]
    simp

lemma window_result (e : TFSlice) (rest : List TFSlice) (ts : PySlice)
    (s0 : TFSlice) (srest : List TFSlice)
    (h : translationWindow (e :: rest) ts = s0 :: srest) :
    template_slice_to_source_slice (some (e :: rest)) ts =
      some
        (if startBound s0 ts > stopBound (srest.getLastD s0) ts then widestSpan s0 srest
         else PySlice.mk (startBound s0 ts) (stopBound (srest.getLastD s0) ts),
         !((s0 :: srest).any fun el => decide (el.kind ≠ "literal"))) := by
  simp only [template_slice_to_source_slice]
  rw [h]
  show (if startBound s0 ts > stopBound (srest.getLastD s0) ts then
      some (widestSpan s0 srest,
        if (s0 :: srest).any (fun el => decide (el.kind ≠ "literal")) then false
        else
          if (srest.getLastD s0).kind = "literal" then
            if s0.kind = "literal" then true else false
          else false)
    else
      some (PySlice.mk (startBound s0 ts) (stopBound (srest.getLastD s0) ts),
        if (s0 :: srest).any (fun el => decide (el.kind ≠ "literal")) then false
        else
          if (srest.getLastD s0).kind = "literal" then
            if s0.kind = "literal" then true else false
          else false)) = _
  rw [flag_eq]
  by_cases hc : startBound s0 ts > stopBound (srest.getLastD s0) ts
  · rw [if_pos hc, if_pos hc]
  · rw [if_neg hc, if_neg hc]

/-- Claim C1 (counterexample): on a window of two literal segments whose
source spans are out of order, the boundary computation yields
`source_start = 20 > 5 = source_stop`, so the degenerate-order fallback
fires and the widest span `[0, 25)` is returned — but the exactness flag is
`true`, not `false`, because the code never clears `is_literal` in the
fallback branch.  This refutes the claim's "the returned exactness flag is
false regardless of the kinds of the segments in the window". -/
theorem degenerate_fallback_literal_flag_cex :
    startBound ⟨"literal", ⟨20, 25⟩, ⟨0, 5⟩⟩ ⟨0, 10⟩ = 20
    ∧ stopBound ⟨"literal", ⟨0, 5⟩, ⟨5, 10⟩⟩ ⟨0, 10⟩ = 5
    ∧ translationWindow reorderedTable ⟨0, 10⟩ = reorderedTable
    ∧ template_slice_to_source_slice (some reorderedTable) ⟨0, 10⟩
        = some (⟨0, 25⟩, true) :=
  ⟨by decide, by decide, by decide, by decide⟩

/-- Claim C1 (amended): whenever the boundary computation for the
translation window produces `source_start > source_stop`, the returned span
is the widest enclosing span (minimum source start to maximum source stop
over the window), and the returned exactness flag is false exactly when some
segment of the window is not literal — it stays true when every segment of
the window is literal. -/
theorem degenerate_fallback_widest_span (l : List TFSlice) (ts : PySlice)
    (s0 : TFSlice) (srest : List TFSlice)
    (hw : translationWindow l ts = s0 :: srest)
    (hrev : startBound s0 ts > stopBound (srest.getLastD s0) ts) :
    template_slice_to_source_slice (some l) ts
      = some (widestSpan s0 srest,
          !((s0 :: srest).any fun el => decide (el.kind ≠ "literal"))) := by
  cases l with
  | nil =>
    rw [show translationWindow [] ts = [] from rfl] at hw
    cases hw
  | cons e rest =>
    rw [window_result e rest ts s0 srest hw, if_pos hrev]

/-- Claim C1 (witness for the amended theorem): the amended theorem applied
to the out-of-source-order two-literal-segment table. -/
theorem degenerate_fallback_widest_span_witness :
    template_slice_to_source_slice (some reorderedTable) ⟨0, 10⟩
      = some (widestSpan ⟨"literal", ⟨20, 25⟩, ⟨0, 5⟩⟩ [⟨"literal", ⟨0, 5⟩, ⟨5, 10⟩⟩],
          !(([⟨"literal", ⟨20, 25⟩, ⟨0, 5⟩⟩,
              ⟨"literal", ⟨0, 5⟩, ⟨5, 10⟩⟩] : List TFSlice).any
              fun el => decide (el.kind ≠ "literal"))) :=
  degenerate_fallback_widest_span reorderedTable ⟨0, 10⟩
    ⟨"literal", ⟨20, 25⟩, ⟨0, 5⟩⟩ [⟨"literal", ⟨0, 5⟩, ⟨5, 10⟩⟩]
    (by decide) (by decide)

/-- Claim C3 (counterexample): for a span whose start exceeds its stop the
function does not fail — it returns an ordinary result (here the reversed
boundary computation even triggers the widest-span fallback).  This refutes
"fails with a typed InvalidSpan error for every input span whose start
exceeds its stop". -/
theorem reversed_span_returns_result_cex :
    template_slice_to_source_slice (some [⟨"literal", ⟨0, 3⟩, ⟨0, 3⟩⟩]) ⟨5, 2⟩
      = some (⟨0, 3⟩, true) := by
  decide

/-- Claim C3 (amended): `template_slice_to_source_slice` performs no input
validation and never fails: for every correspondence table (absent, empty or
not) and every input span — including spans with `start > stop` or bounds
outside the templated text — it returns a result.  In particular it never
fails under the stated precondition. -/
theorem slice_translation_total (sliced_file : Option (List TFSlice))
    (ts : PySlice) :
    (template_slice_to_source_slice sliced_file ts).isSome = true := by
  match sliced_file with
  | none => rfl
  | some [] => rfl
  | some (e :: rest) =>
    cases hw : translationWindow (e :: rest) ts with
    | nil => exact absurd hw (translationWindow_cons_ne_nil e rest ts)
    | cons s0 srest =>
      rw [window_result e rest ts s0 srest hw]
      rfl

/-- Claim C4: on the two-segment example table, templated span `[0, 14)`
maps to `(source [0, 14), exact = true)` and templated span `[14, 21)` maps
to `(source [14, 26), exact = false)`; and in general, for every non-empty
table, the returned exactness flag is false exactly when some segment of the
selected window is not literal (this holds unconditionally, hence in
particular outside the degenerate-order fallback). -/
theorem window_example_and_exactness_iff :
    (template_slice_to_source_slice (some exampleTable) ⟨0, 14⟩
        = some (⟨0, 14⟩, true)
      ∧ template_slice_to_source_slice (some exampleTable) ⟨14, 21⟩
        = some (⟨14, 26⟩, false))
    ∧ ∀ (e : TFSlice) (rest : List TFSlice) (ts sp : PySlice) (ex : Bool),
        template_slice_to_source_slice (some (e :: rest)) ts = some (sp, ex)
        → (ex = false
            ↔ (translationWindow (e :: rest) ts).any
                (fun el => decide (el.kind ≠ "literal")) = true) := by
  refine ⟨⟨by decide, by decide⟩, ?_⟩
  intro e rest ts sp ex h
  cases hw : translationWindow (e :: rest) ts with
  | nil => exact absurd hw (translationWindow_cons_ne_nil e rest ts)
  | cons s0 srest =>
    rw [window_result e rest ts s0 srest hw] at h
    have h' := Option.some.inj h
    have hex : ex = !((s0 :: srest).any fun el => decide (el.kind ≠ "literal")) :=
      (congrArg Prod.snd h').symm
    cases hany : ((s0 :: srest).any fun el => decide (el.kind ≠ "literal")) with
    | false =>
      rw [hany] at hex
      simp [hex]
    | true =>
      rw [hany] at hex
      simp [hex]

/-- Claim C4 (witness for the general part): the exactness flag returned for
templated span `[14, 21)` of the example table is `false`, and the window
there indeed contains a non-literal segment. -/
theorem window_example_and_exactness_iff_witness :
    false = false
      ↔ (translationWindow
            (⟨"literal", ⟨0, 14⟩, ⟨0, 14⟩⟩
              :: [⟨"templated", ⟨14, 26⟩, ⟨14, 21⟩⟩]) ⟨14, 21⟩).any
          (fun el => decide (el.kind ≠ "literal")) = true :=
  window_example_and_exactness_iff.2 ⟨"literal", ⟨0, 14⟩, ⟨0, 14⟩⟩
    [⟨"templated", ⟨14, 26⟩, ⟨14, 21⟩⟩] ⟨14, 21⟩ ⟨14, 26⟩ false (by decide)

/-- Claim C6: when the correspondence table is absent (`None`) or empty
(falsy), `template_slice_to_source_slice` returns the input span unchanged
with exactness flag false, for every input span. -/
theorem no_table_identity (tf : TemplatedFile) (ts : PySlice)
    (h : tf.sliced_file = none ∨ tf.sliced_file = some []) :
    tf.toSourceSlice ts = some (ts, false) := by
  unfold TemplatedFile.toSourceSlice
  rcases h with h | h <;> rw [h] <;> rfl

/-- Claim C6 (witness): a file built without a table returns the identity
result. -/
theorem no_table_identity_witness :
    (TemplatedFile.init "x" none none none).toSourceSlice ⟨0, 1⟩
      = some (⟨0, 1⟩, false) :=
  no_table_identity (TemplatedFile.init "x" none none none) ⟨0, 1⟩ (Or.inl rfl)

/-- Claim C7: for a table of a single literal segment covering `[0, N)` in
both texts, every sub-span translates to itself with exactness true. -/
theorem literal_round_trip (N a b : Int) (h0 : 0 ≤ a) (hab : a ≤ b)
    (hbN : b ≤ N) :
    template_slice_to_source_slice (some [⟨"literal", ⟨0, N⟩, ⟨0, N⟩⟩]) ⟨a, b⟩
      = some (⟨a, b⟩, true) := by
  have hw : translationWindow [⟨"literal", ⟨0, N⟩, ⟨0, N⟩⟩] ⟨a, b⟩
      = [⟨"literal", ⟨0, N⟩, ⟨0, N⟩⟩] := rfl
  have hng : ¬ startBound ⟨"literal", ⟨0, N⟩, ⟨0, N⟩⟩ ⟨a, b⟩
      > stopBound (([] : List TFSlice).getLastD ⟨"literal", ⟨0, N⟩, ⟨0, N⟩⟩) ⟨a, b⟩ := by
    simp only [startBound, stopBound, List.getLastD_nil, if_pos rfl]
    omega
  rw [window_result ⟨"literal", ⟨0, N⟩, ⟨0, N⟩⟩ [] ⟨a, b⟩
    ⟨"literal", ⟨0, N⟩, ⟨0, N⟩⟩ [] hw, if_neg hng]
  simp only [startBound, stopBound, List.getLastD_nil, if_pos rfl]
  have h1 : (0 : Int) + (a - 0) = a := by ring
  have h2 : N - (N - b) = b := by ring
  rw [h1, h2]
  rfl

/-- Claim C7 (witness): the round trip at a concrete sub-span. -/
theorem literal_round_trip_witness :
    template_slice_to_source_slice (some [⟨"literal", ⟨0, 10⟩, ⟨0, 10⟩⟩]) ⟨2, 7⟩
      = some (⟨2, 7⟩, true) :=
  literal_round_trip 10 2 7 (by decide) (by decide) (by decide)

/-- Claim C9: templater equality — the `==` comparison whose left operand's
class provides the inherited `RawTemplater.__eq__` — holds between two
templater instances exactly when they are instances of the same concrete
class; the relation is symmetric, and in particular a `DataformTemplater`
(subclass) instance and a `RawTemplater` (base) instance are never equal in
either direction: the reflected-operand priority of the interpreter makes
the subclass side's `isinstance(other, DataformTemplater)` decide both
comparisons of such a mixed pair. -/
theorem templater_eq_same_concrete_class (a b : TemplaterClass) :
    (templaterEq a b = true ↔ a = b)
    ∧ templaterEq a b = templaterEq b a
    ∧ templaterEq TemplaterClass.rawTemplater TemplaterClass.dataformTemplater
        = false
    ∧ templaterEq TemplaterClass.dataformTemplater TemplaterClass.rawTemplater
        = false := by
  refine ⟨?_, ?_, by decide, by decide⟩ <;>
    cases a <;> cases b <;>
      simp [templaterEq, RawTemplater.eqMethod, isinstance]

/-- Claim C10: supplying an explicitly empty templated string to the
`TemplatedFile` constructor is the same as supplying none at all — the
templated text falls back to the source text — so the object's truthiness is
exactly the non-emptiness of the source text, and an empty templated string
can never coexist with a non-empty source string. -/
theorem empty_templated_str_fallback (s : String) (t : Option String)
    (f : Option String) (sf : Option (List TFSlice)) :
    TemplatedFile.init s (some "") f sf = TemplatedFile.init s none f sf
    ∧ (TemplatedFile.init s (some "") f sf).toBool = decide (s ≠ "")
    ∧ ((TemplatedFile.init s t f sf).templated_str = ""
        → (TemplatedFile.init s t f sf).source_str = "") := by
  refine ⟨rfl, rfl, ?_⟩
  intro h
  unfold TemplatedFile.init at h ⊢
  cases t with
  | none => simpa using h
  | some u =>
    by_cases hu : u = ""
    · simp only [if_pos hu] at h
      simpa using h
    · simp only [if_neg hu] at h
      exact absurd h hu

/-- Claim C10 (witness): an empty source with an explicitly empty templated
string yields an empty templated view and an empty source. -/
theorem empty_templated_str_fallback_witness :
    (TemplatedFile.init "" (some "") none none).templated_str = ""
    ∧ (TemplatedFile.init "" (some "") none none).source_str = "" :=
  ⟨rfl, (empty_templated_str_fallback "" (some "") none none).2.2 rfl⟩

lemma init_newlines (s : String) (t f : Option String)
    (sf : Option (List TFSlice)) (src : Bool) :
    (if src then (TemplatedFile.init s t f sf).source_newlines
     else (TemplatedFile.init s t f sf).templated_newlines)
      = iter_indices_of_newlines
          (((TemplatedFile.init s t f sf).selectedText src).toList) := by
  cases src <;> rfl

/-- Claim C2 (counterexample): `get_line_pos_of_char_pos` does not reject a
negative offset — there is no validation anywhere in the function — it
silently returns the nonsensical position `(1, 0)` for offset `-1` of the
text `a\nb`.  This refutes "fails with a typed InvalidOffset error ... for
every negative offset". -/
theorem negative_offset_returns_result_cex :
    get_line_pos_of_char_pos (iter_indices_of_newlines ['a', '\n', 'b']) (-1)
      = (1, 0) := by
  decide

/-- Claim C2 (amended): `get_line_pos_of_char_pos` never fails: offsets are
not validated, a negative offset silently yields `(1, offset + 1)` (instead
of surfacing an error), an offset beyond the text length also yields an
ordinary result, and an offset equal to the text length succeeds and returns
the position immediately following the last character (its line is the
total newline count plus one). -/
theorem char_pos_no_invalid_offset_error (s : String) (t f : Option String)
    (sf : Option (List TFSlice)) (src : Bool) (c : Int) (hneg : c < 0) :
    (TemplatedFile.init s t f sf).get_line_pos c src = (1, c + 1)
    ∧ ((TemplatedFile.init s t f sf).get_line_pos
        ((((TemplatedFile.init s t f sf).selectedText src).toList.length : Nat) : Int)
        src).1
      = ((iter_indices_of_newlines
            (((TemplatedFile.init s t f sf).selectedText src).toList)).length : Int)
        + 1 := by
  constructor
  · unfold TemplatedFile.get_line_pos
    rw [init_newlines]
    apply glp_eq_zero
    apply nlScan_eq_zero
    intro x hx
    have := iter_newlines_nonneg _ x hx
    omega
  · unfold TemplatedFile.get_line_pos
    rw [init_newlines, glp_fst,
      nlScan_eq_length _ _ (iter_newlines_lt _)]

/-- Claim C2 (witness): the amended theorem applied at offset `-1` of a
source file `a\nb`. -/
theorem char_pos_no_invalid_offset_error_witness :
    (TemplatedFile.init "a\nb" none none none).get_line_pos (-1) true
      = (1, -1 + 1)
    ∧ ((TemplatedFile.init "a\nb" none none none).get_line_pos
        ((((TemplatedFile.init "a\nb" none none none).selectedText true).toList.length
            : Nat) : Int)
        true).1
      = ((iter_indices_of_newlines
            (((TemplatedFile.init "a\nb" none none none).selectedText true).toList)).length
          : Int)
        + 1 :=
  char_pos_no_invalid_offset_error "a\nb" none none none true (-1) (by decide)

/-- Claim C5 (counterexample): for the text `a\nb` (single newline at offset
1) and offset 2, the greatest newline offset below the offset is `n = 1`,
there is exactly one newline offset at most `n`, and the claim's formula
`line = (count of newline offsets ≤ n) + 2` predicts line 3 — but the code
returns line 2 (the spec-modelled `spec_line_pos` and the code disagree). -/
theorem line_pos_formula_cex :
    get_line_pos_of_char_pos (iter_indices_of_newlines ['a', '\n', 'b']) 2
      = (2, 1)
    ∧ spec_line_pos (iter_indices_of_newlines ['a', '\n', 'b']) 2 = (3, 1) :=
  ⟨by decide, by decide⟩

/-- Claim C5 (amended): for every text and offset, when `n` — the greatest
newline offset strictly below the offset — exists, the function returns
`line = (count of newline offsets strictly less than n) + 2` (equivalently,
`(count of newline offsets at most n) + 1`) and `column = offset - n`;
otherwise it returns `line = 1` and `column = offset + 1`. -/
theorem line_pos_formula_amended (s : List Char) (c : Int) (h0 : 0 ≤ c)
    (hlen : c ≤ (s.length : Int)) :
    get_line_pos_of_char_pos (iter_indices_of_newlines s) c
      = spec_line_pos_amended (iter_indices_of_newlines s) c := by
  have hs := iter_newlines_sorted s
  cases hscan : nlScan (iter_indices_of_newlines s) c with
  | zero =>
    rw [glp_eq_zero _ c hscan]
    simp only [spec_line_pos_amended, greatestBelow_scan_zero _ c hs hscan]
  | succ m =>
    have hm : m < (iter_indices_of_newlines s).length := by
      have := nlScan_le_length (iter_indices_of_newlines s) c
      omega
    rw [glp_eq_succ _ c m hscan]
    simp only [spec_line_pos_amended, greatestBelow_scan_succ _ c m hs hscan]
    rw [filter_lt_eq_take _ _ hs, nlScan_getD _ m hs hm]
    rw [List.length_take, min_eq_left (le_of_lt hm)]

/-- Claim C5 (witness): the amended formula evaluated at offset 2 of the
text `a\nb`. -/
theorem line_pos_formula_amended_witness :
    get_line_pos_of_char_pos (iter_indices_of_newlines ['a', '\n', 'b']) 2
      = spec_line_pos_amended (iter_indices_of_newlines ['a', '\n', 'b']) 2 :=
  line_pos_formula_amended ['a', '\n', 'b'] 2 (by decide) (by decide)

/-- Claim C8: line/column positions are monotone in the offset — for two
valid offsets `o1 < o2` of the same text, the line of `o1` is at most the
line of `o2`, and when the lines agree the column of `o1` is strictly below
the column of `o2`. -/
theorem line_pos_monotone (s : List Char) (o1 o2 : Int) (h0 : 0 ≤ o1)
    (h12 : o1 < o2) (hlen : o2 ≤ (s.length : Int)) :
    (get_line_pos_of_char_pos (iter_indices_of_newlines s) o1).1
      ≤ (get_line_pos_of_char_pos (iter_indices_of_newlines s) o2).1
    ∧ ((get_line_pos_of_char_pos (iter_indices_of_newlines s) o1).1
        = (get_line_pos_of_char_pos (iter_indices_of_newlines s) o2).1
      → (get_line_pos_of_char_pos (iter_indices_of_newlines s) o1).2
        < (get_line_pos_of_char_pos (iter_indices_of_newlines s) o2).2) := by
  have hmono := nlScan_mono (iter_indices_of_newlines s) (le_of_lt h12)
  constructor
  · rw [glp_fst, glp_fst]
    omega
  · intro heq
    rw [glp_fst, glp_fst] at heq
    have hk : nlScan (iter_indices_of_newlines s) o1
        = nlScan (iter_indices_of_newlines s) o2 := by omega
    cases hscan : nlScan (iter_indices_of_newlines s) o2 with
    | zero =>
      have h1 : nlScan (iter_indices_of_newlines s) o1 = 0 := by omega
      rw [glp_eq_zero _ o1 h1, glp_eq_zero _ o2 hscan]
      show o1 + 1 < o2 + 1
      omega
    | succ m =>
      have h1 : nlScan (iter_indices_of_newlines s) o1 = m + 1 := by omega
      rw [glp_eq_succ _ o1 m h1, glp_eq_succ _ o2 m hscan]
      show o1 - (iter_indices_of_newlines s).getD m 0
          < o2 - (iter_indices_of_newlines s).getD m 0
      omega

/-- Claim C8 (witness): monotonicity at offsets 0 and 2 of the text
`a\nb`. -/
theorem line_pos_monotone_witness :
    (get_line_pos_of_char_pos (iter_indices_of_newlines ['a', '\n', 'b']) 0).1
      ≤ (get_line_pos_of_char_pos (iter_indices_of_newlines ['a', '\n', 'b']) 2).1
    ∧ ((get_line_pos_of_char_pos (iter_indices_of_newlines ['a', '\n', 'b']) 0).1
        = (get_line_pos_of_char_pos (iter_indices_of_newlines ['a', '\n', 'b']) 2).1
      → (get_line_pos_of_char_pos (iter_indices_of_newlines ['a', '\n', 'b']) 0).2
        < (get_line_pos_of_char_pos (iter_indices_of_newlines ['a', '\n', 'b']) 2).2) :=
  line_pos_monotone ['a', '\n', 'b'] 0 2 (by decide) (by decide) (by decide)

end SqlFluff
